import Mathlib

/-!
Verification development for a Go package that provisions a short-lived
docker container: it validates options, pulls the image when absent,
selects free external ports, creates and starts the container, and waits
until the containerized service is running and reachable.

Shallow embedding notes:
* Go maps are embedded as association lists with overwrite-on-insert
  (`assocInsert` removes any existing entry for the key before appending);
  lookup (`assocLookup`) therefore matches Go map indexing.
* External collaborators (the docker engine client, the interval
  interpreter `interval.ParseIntervalInteger`, the port selector
  `connectionutils.SelectPortExcluding`, `net.Dial`, `uuid.NewRandom`)
  are oracles packaged in an `Env` record.  Stateful collaborators that
  are invoked repeatedly (inspection, dialing, port selection) are
  indexed by the call number.
* Durations are nanosecond counts (`Nat`).  The polling loops
  `waitStarted` / `waitReachable` sleep a fixed step between iterations;
  with instantaneous loop bodies the wall-clock bound `maxWait` turns
  into `stepsCount maxWait step` iterations, which is how the timed
  loops are embedded (structural fuel).
* Error values are embedded as `Except String`; message strings keep the
  prefix of the Go message (the Go messages additionally append the
  waiting time or the wrapped cause, which the claims do not inspect).
-/

namespace Docker

/-- Type `PortBinding` from the source: protocol, internal port, and the textual
interval of allowed external ports. -/
structure PortBinding where
  protocol : String
  internal : Int
  externalInterval : String
deriving DecidableEq

instance : Inhabited PortBinding := ⟨⟨"", 0, ""⟩⟩

/-- An inclusive integer interval, result of parsing an
`ExternalInterval` expression (external collaborator `interval`). -/
structure Interval where
  min : Int
  max : Int
deriving DecidableEq

/-- Type `Options` from the source (the `Logger` field is omitted: logging has
no semantic effect; the environment-variable map is kept as an
association list). -/
structure Options where
  name : String
  image : String
  ports : List PortBinding
  environmentVariables : List (String × String)

/-- Type `ContainerInfo` from the source; `Address` is kept as the textual IP. -/
structure ContainerInfo where
  identifier : String
  address : String
  ports : List (PortBinding × Int)
deriving DecidableEq

/-- Remove every entry with the given key (helper for Go map insertion). -/
def assocErase {κ α : Type} [DecidableEq κ] : List (κ × α) → κ → List (κ × α)
  | [], _ => []
  | p :: rest, k => if p.1 = k then assocErase rest k else p :: assocErase rest k

/-- Go map insertion: drop any existing entry for the key, append the new
binding. -/
def assocInsert {κ α : Type} [DecidableEq κ] (m : List (κ × α)) (k : κ) (v : α) :
    List (κ × α) :=
  assocErase m k ++ [(k, v)]

/-- Go map indexing (as an `Option`). -/
def assocLookup {κ α : Type} [DecidableEq κ] : List (κ × α) → κ → Option α
  | [], _ => none
  | p :: rest, k => if p.1 = k then some p.2 else assocLookup rest k

/-- The keys of an association list. -/
def assocKeys {κ α : Type} (m : List (κ × α)) : List κ := m.map Prod.fst

theorem assocLookup_append_of_none {κ α : Type} [DecidableEq κ]
    (l₁ l₂ : List (κ × α)) (k : κ) (h : assocLookup l₁ k = none) :
    assocLookup (l₁ ++ l₂) k = assocLookup l₂ k := by
  induction l₁ with
  | nil => simp
  | cons p rest ih =>
    simp only [assocLookup] at h ⊢
    by_cases hk : p.1 = k
    · simp [hk] at h
    · simp only [List.cons_append, assocLookup, hk, if_false] at h ⊢
      exact ih h

theorem assocLookup_erase_self {κ α : Type} [DecidableEq κ]
    (m : List (κ × α)) (k : κ) :
    assocLookup (assocErase m k) k = none := by
  induction m with
  | nil => simp [assocErase, assocLookup]
  | cons p rest ih =>
    by_cases hk : p.1 = k
    · simp [assocErase, hk, ih]
    · simp [assocErase, hk, assocLookup, ih]

theorem assocLookup_erase_of_ne {κ α : Type} [DecidableEq κ]
    (m : List (κ × α)) (k k' : κ) (h : k' ≠ k) :
    assocLookup (assocErase m k) k' = assocLookup m k' := by
  have hks : ¬k = k' := fun hc => h hc.symm
  induction m with
  | nil => rfl
  | cons p rest ih =>
    by_cases hk : p.1 = k
    · simp [assocErase, hk, assocLookup, hks, ih]
    · by_cases hk' : p.1 = k'
      · simp [assocErase, hk, assocLookup, hk', h]
      · simp [assocErase, hk, assocLookup, hk', ih]

theorem assocLookup_insert_self {κ α : Type} [DecidableEq κ]
    (m : List (κ × α)) (k : κ) (v : α) :
    assocLookup (assocInsert m k v) k = some v := by
  unfold assocInsert
  rw [assocLookup_append_of_none _ _ _ (assocLookup_erase_self m k)]
  simp [assocLookup]

theorem assocLookup_insert_ne {κ α : Type} [DecidableEq κ]
    (m : List (κ × α)) (k k' : κ) (v : α) (h : k' ≠ k) :
    assocLookup (assocInsert m k v) k' = assocLookup m k' := by
  have hks : ¬k = k' := fun hc => h hc.symm
  unfold assocInsert
  induction m with
  | nil => simp [assocErase, assocLookup, hks]
  | cons p rest ih =>
    by_cases hk : p.1 = k
    · simp only [assocErase, hk, if_true]
      rw [ih]
      simp [assocLookup, hk, hks]
    · by_cases hk' : p.1 = k'
      · simp [assocErase, hk, assocLookup, hk', h]
      · simp only [assocErase, hk, if_false, List.cons_append, assocLookup, hk']
        exact ih

theorem assocErase_length_le {κ α : Type} [DecidableEq κ]
    (m : List (κ × α)) (k : κ) :
    (assocErase m k).length ≤ m.length := by
  induction m with
  | nil => simp [assocErase]
  | cons p rest ih =>
    by_cases hk : p.1 = k
    · simp only [assocErase, hk, if_true, List.length_cons]; omega
    · simp only [assocErase, hk, if_false, List.length_cons]; omega

theorem assocInsert_length_le {κ α : Type} [DecidableEq κ]
    (m : List (κ × α)) (k : κ) (v : α) :
    (assocInsert m k v).length ≤ m.length + 1 := by
  unfold assocInsert
  simp only [List.length_append, List.length_cons, List.length_nil]
  have := assocErase_length_le m k
  omega

theorem assocErase_length_of_mem {κ α : Type} [DecidableEq κ]
    (m : List (κ × α)) (k : κ) (h : (assocLookup m k).isSome) :
    (assocErase m k).length + 1 ≤ m.length := by
  induction m with
  | nil => simp [assocLookup] at h
  | cons p rest ih =>
    by_cases hk : p.1 = k
    · have := assocErase_length_le rest k
      simp only [assocErase, hk, if_true, List.length_cons]
      omega
    · simp only [assocLookup, hk, if_false] at h
      have := ih h
      simp only [assocErase, hk, if_false, List.length_cons]
      omega

theorem assocInsert_length_of_mem {κ α : Type} [DecidableEq κ]
    (m : List (κ × α)) (k : κ) (v : α) (h : (assocLookup m k).isSome) :
    (assocInsert m k v).length ≤ m.length := by
  unfold assocInsert
  simp only [List.length_append, List.length_cons, List.length_nil]
  have := assocErase_length_of_mem m k h
  omega

theorem assocLookup_insert_isSome {κ α : Type} [DecidableEq κ]
    (m : List (κ × α)) (k k' : κ) (v : α) (h : (assocLookup m k').isSome) :
    (assocLookup (assocInsert m k v) k').isSome := by
  by_cases hk : k' = k
  · subst hk; rw [assocLookup_insert_self]; simp
  · rw [assocLookup_insert_ne m k k' v hk]; exact h

/-! ## Port selection (`selectPorts`)

The Go loop keeps a `used` slice that is created empty and — faithfully
reproduced here — never appended to, and a result map keyed by the whole
`PortBinding` record.  The external selector
`connectionutils.SelectPortExcluding` is an oracle
`select : address → call index → interval → excluded → port`; the call
index threads the selector's hidden state (actual host port
availability) through consecutive calls. -/

/-- Loop of `selectPorts` from the source: parse each binding's interval,
ask the selector for a port, store it under the binding.  `used` mirrors
the Go variable of the same name (initialised empty, never grown). -/
def selectPortsGo (parse : String → Except String Interval)
    (select : String → Nat → Interval → List Int → Int) (address : String)
    (i : Nat) (used : List Int) (acc : List (PortBinding × Int)) :
    List PortBinding → Except String (List (PortBinding × Int))
  | [] => .ok acc
  | b :: rest =>
    match parse b.externalInterval with
    | .error e => .error ("Parsing " ++ b.externalInterval ++ ": " ++ e)
    | .ok iv =>
      selectPortsGo parse select address (i + 1) used
        (assocInsert acc b (select address i iv used)) rest

/-- Function `selectPorts` from the source. -/
def selectPorts (parse : String → Except String Interval)
    (select : String → Nat → Interval → List Int → Int) (address : String)
    (possiblePorts : List PortBinding) : Except String (List (PortBinding × Int)) :=
  selectPortsGo parse select address 0 [] [] possiblePorts

/-- Pure reference shape of the map built by `selectPortsGo` when every
interval parses: insert, for the binding processed at call index `i`, the
value `f i b`. -/
def buildMap (f : Nat → PortBinding → Int) (i : Nat)
    (acc : List (PortBinding × Int)) : List PortBinding → List (PortBinding × Int)
  | [] => acc
  | b :: rest => buildMap f (i + 1) (assocInsert acc b (f i b)) rest

/-- Index (position) of the last occurrence of `b` in the list. -/
def lastIdx (b : PortBinding) : List PortBinding → Nat
  | [] => 0
  | _ :: rest => if b ∈ rest then 1 + lastIdx b rest else 0

theorem selectPortsGo_eq_buildMap (parse : String → Except String Interval)
    (select : String → Nat → Interval → List Int → Int) (address : String)
    (ivOf : PortBinding → Interval) (bs : List PortBinding)
    (hparse : ∀ b ∈ bs, parse b.externalInterval = .ok (ivOf b)) :
    ∀ i used acc,
      selectPortsGo parse select address i used acc bs =
        .ok (buildMap (fun j b => select address j (ivOf b) used) i acc bs) := by
  induction bs with
  | nil => intro i used acc; rfl
  | cons b rest ih =>
    intro i used acc
    have hb : parse b.externalInterval = .ok (ivOf b) := hparse b (by simp)
    simp only [selectPortsGo, hb, buildMap]
    exact ih (fun x hx => hparse x (by simp [hx])) (i + 1) used _

theorem buildMap_lookup_of_not_mem (f : Nat → PortBinding → Int)
    (bs : List PortBinding) (b : PortBinding) (hb : b ∉ bs) :
    ∀ i acc, assocLookup (buildMap f i acc bs) b = assocLookup acc b := by
  induction bs with
  | nil => intro i acc; rfl
  | cons c rest ih =>
    intro i acc
    have hbc : b ≠ c := fun hc => hb (by simp [hc])
    have hbr : b ∉ rest := fun hr => hb (by simp [hr])
    simp only [buildMap]
    rw [ih hbr, assocLookup_insert_ne _ _ _ _ hbc]

theorem buildMap_lookup_of_mem (f : Nat → PortBinding → Int)
    (bs : List PortBinding) (b : PortBinding) (hb : b ∈ bs) :
    ∀ i acc, assocLookup (buildMap f i acc bs) b = some (f (i + lastIdx b bs) b) := by
  induction bs with
  | nil => cases hb
  | cons c rest ih =>
    intro i acc
    by_cases hbr : b ∈ rest
    · simp only [buildMap]
      rw [ih hbr]
      have h1 : i + 1 + lastIdx b rest = i + lastIdx b (c :: rest) := by
        simp only [lastIdx, hbr, if_true]; omega
      rw [h1]
    · have hbc : b = c := by
        rcases List.mem_cons.mp hb with h | h
        · exact h
        · exact absurd h hbr
      subst hbc
      simp only [buildMap, lastIdx, hbr, if_false]
      rw [buildMap_lookup_of_not_mem f rest b hbr, assocLookup_insert_self, Nat.add_zero]

theorem buildMap_length_le (f : Nat → PortBinding → Int)
    (bs : List PortBinding) :
    ∀ i acc, (buildMap f i acc bs).length ≤ acc.length + bs.length := by
  induction bs with
  | nil => intro i acc; simp [buildMap]
  | cons c rest ih =>
    intro i acc
    simp only [buildMap, List.length_cons]
    have h1 := ih (i + 1) (assocInsert acc c (f i c))
    have h2 := assocInsert_length_le acc c (f i c)
    omega

theorem buildMap_lookup_isSome (f : Nat → PortBinding → Int)
    (bs : List PortBinding) (b : PortBinding) :
    ∀ i acc, (assocLookup acc b).isSome →
      (assocLookup (buildMap f i acc bs) b).isSome := by
  induction bs with
  | nil => intro i acc h; exact h
  | cons c rest ih =>
    intro i acc h
    simp only [buildMap]
    exact ih (i + 1) _ (assocLookup_insert_isSome _ _ _ _ h)

theorem buildMap_length_of_mem (f : Nat → PortBinding → Int)
    (bs : List PortBinding) (b : PortBinding) (hb : b ∈ bs) :
    ∀ i acc, (assocLookup acc b).isSome →
      (buildMap f i acc bs).length + 1 ≤ acc.length + bs.length := by
  induction bs with
  | nil => cases hb
  | cons c rest ih =>
    intro i acc hsome
    simp only [buildMap, List.length_cons]
    by_cases hbr : b ∈ rest
    · have h1 := ih hbr (i + 1) (assocInsert acc c (f i c))
        (assocLookup_insert_isSome _ _ _ _ hsome)
      have h2 := assocInsert_length_le acc c (f i c)
      omega
    · have hbc : b = c := by
        rcases List.mem_cons.mp hb with h | h
        · exact h
        · exact absurd h hbr
      subst hbc
      have h1 := buildMap_length_le f rest (i + 1) (assocInsert acc b (f i b))
      have h2 := assocInsert_length_of_mem acc b (f i b) hsome
      omega

theorem buildMap_append (f : Nat → PortBinding → Int)
    (xs ys : List PortBinding) :
    ∀ i acc, buildMap f i acc (xs ++ ys) =
      buildMap f (i + xs.length) (buildMap f i acc xs) ys := by
  induction xs with
  | nil => intro i acc; simp [buildMap]
  | cons c rest ih =>
    intro i acc
    simp only [List.cons_append, buildMap, List.length_cons, List.append_eq]
    rw [ih]
    have h1 : i + 1 + rest.length = i + (rest.length + 1) := by omega
    rw [h1]

theorem lastIdx_append_of_mem (b : PortBinding) (xs ys : List PortBinding)
    (h : b ∈ ys) : lastIdx b (xs ++ ys) = xs.length + lastIdx b ys := by
  induction xs with
  | nil => simp
  | cons c rest ih =>
    have hm : b ∈ rest ++ ys := List.mem_append.mpr (Or.inr h)
    simp only [List.cons_append, lastIdx, List.append_eq, hm, if_true,
      List.length_cons, ih]
    omega

theorem assocKeys_erase_not_mem {κ α : Type} [DecidableEq κ]
    (m : List (κ × α)) (k : κ) : k ∉ assocKeys (assocErase m k) := by
  induction m with
  | nil => simp [assocErase, assocKeys]
  | cons p rest ih =>
    by_cases hk : p.1 = k
    · simpa [assocErase, hk] using ih
    · simp only [assocErase, hk, if_false, assocKeys, List.map_cons, List.mem_cons]
      rintro (h | h)
      · exact hk h.symm
      · exact ih h

theorem assocKeys_erase_sublist {κ α : Type} [DecidableEq κ]
    (m : List (κ × α)) (k : κ) :
    (assocKeys (assocErase m k)).Sublist (assocKeys m) := by
  induction m with
  | nil => simp [assocErase, assocKeys]
  | cons p rest ih =>
    by_cases hk : p.1 = k
    · simp only [assocErase, hk, if_true, assocKeys, List.map_cons]
      exact ih.cons _
    · simp only [assocErase, hk, if_false, assocKeys, List.map_cons]
      exact ih.cons₂ _

theorem assocKeys_insert_nodup {κ α : Type} [DecidableEq κ]
    (m : List (κ × α)) (k : κ) (v : α) (h : (assocKeys m).Nodup) :
    (assocKeys (assocInsert m k v)).Nodup := by
  unfold assocInsert
  have h1 : (assocKeys (assocErase m k)).Nodup :=
    (assocKeys_erase_sublist m k).nodup h
  have h2 : k ∉ assocKeys (assocErase m k) := assocKeys_erase_not_mem m k
  simp only [assocKeys, List.map_append, List.map_cons, List.map_nil]
  rw [List.nodup_append]
  refine ⟨h1, List.nodup_singleton k, ?_⟩
  intro x hx
  simp only [List.mem_singleton]
  intro hxk
  exact h2 (hxk ▸ hx)

theorem buildMap_keys_nodup (f : Nat → PortBinding → Int)
    (bs : List PortBinding) :
    ∀ i acc, (assocKeys acc).Nodup → (assocKeys (buildMap f i acc bs)).Nodup := by
  induction bs with
  | nil => intro i acc h; exact h
  | cons c rest ih =>
    intro i acc h
    exact ih (i + 1) _ (assocKeys_insert_nodup acc c (f i c) h)

theorem assocCount_eq_zero_of_not_mem {κ α : Type} [DecidableEq κ]
    (m : List (κ × α)) (k : κ) (h : k ∉ assocKeys m) :
    m.countP (fun q => decide (q.1 = k)) = 0 := by
  induction m with
  | nil => simp
  | cons p rest ih =>
    have h1 : ¬p.1 = k := fun hc => h (by simp [assocKeys, hc])
    have h2 : k ∉ assocKeys rest := fun hc => h (by simp [assocKeys] at hc ⊢; exact Or.inr hc)
    simp only [List.countP_cons, h1, decide_False, if_false]
    simpa using ih h2

theorem assocCount_eq_one {κ α : Type} [DecidableEq κ]
    (m : List (κ × α)) (k : κ) (hnd : (assocKeys m).Nodup)
    (h : (assocLookup m k).isSome) :
    m.countP (fun q => decide (q.1 = k)) = 1 := by
  induction m with
  | nil => simp [assocLookup] at h
  | cons p rest ih =>
    simp only [assocKeys, List.map_cons, List.nodup_cons] at hnd
    by_cases hk : p.1 = k
    · have hz : rest.countP (fun q => decide (q.1 = k)) = 0 :=
        assocCount_eq_zero_of_not_mem rest k (hk ▸ hnd.1)
      simp [List.countP_cons, hk, hz]
    · simp only [assocLookup, hk, if_false] at h
      have := ih hnd.2 h
      simp [List.countP_cons, hk, this]

/-! ## The remaining pure translation helpers -/

/-- The engine-native port key `"<internal>/<protocol>"` (`nat.Port`). -/
def natPort (b : PortBinding) : String := toString b.internal ++ "/" ++ b.protocol

/-- Function `toExposedPorts` from the source: the set of engine port keys exposed
for the request (the Go `nat.PortSet` is a map used as a set; membership
in this list coincides with membership in that set). -/
def toExposedPorts (ports : List PortBinding) : List String :=
  ports.map natPort

/-- One element of the engine's `nat.PortBinding` value: host interface
and host port, both textual.  In the source the `HostIP` field is left
unset (the `"0.0.0.0"` assignment is commented out), so the embedded
value carries `""`. -/
structure NatPortBinding where
  hostIP : String
  hostPort : String
deriving DecidableEq

/-- Loop body of `toDockerPortBindings` from the source: build the engine's
port-binding map.  Note that the `address` argument is never used (its
only use in the source is inside a comment). -/
def toDockerPortBindingsAux (address : String)
    (acc : List (String × List NatPortBinding)) :
    List (PortBinding × Int) → List (String × List NatPortBinding)
  | [] => acc
  | q :: rest =>
    toDockerPortBindingsAux address
      (assocInsert acc (natPort q.1) [⟨"", toString q.2⟩]) rest

/-- Function `toDockerPortBindings` from the source. -/
def toDockerPortBindings (address : String) (ports : List (PortBinding × Int)) :
    List (String × List NatPortBinding) :=
  toDockerPortBindingsAux address [] ports

/-- Function `checkOptions` from the source: at least one port must be declared. -/
def checkOptions (options : Options) : Except String Unit :=
  if options.ports = [] then
    .error "At least one port should be open for external communication"
  else .ok ()

/-! ## The engine / network environment and the orchestration -/

/-- Config passed to `ContainerCreate` (the fields of `container.Config`
and `container.HostConfig` that the source fills in). -/
structure ContainerConfig where
  image : String
  exposedPorts : List String
  env : List String
  portBindings : List (String × List NatPortBinding)
  name : String

/-- Observable calls to the engine client and the network, recorded in
order.  `selectPortsCall` records the address handed to the port
selector. -/
inductive EngineCall where
  | imageList
  | imagePull (image : String)
  | selectPortsCall (address : String)
  | containerCreate (name : String)
  | containerStart (id : String)
  | containerInspect (id : String)
  | dial (hostport : String)
deriving DecidableEq

/-- Oracle for every external collaborator consumed by `New`.
`inspect`/`dial` are indexed by the attempt number within one `New` call;
`dial i = none` means the TCP dial failed, `dial i = some r` means it
connected and closing the connection returned `r`. -/
structure Env where
  newEnvClient : Except String Unit
  imageList : Except String (List (List String))
  imagePull : String → Except String Unit
  uuid : Except String String
  containerCreate : ContainerConfig → Except String (String × List String)
  containerStart : String → Except String Unit
  inspect : Nat → Except String Bool
  dial : Nat → Option (Except String Unit)
  parseInterval : String → Except String Interval
  selectPort : String → Nat → Interval → List Int → Int

/-- Constant `dockerAddress` from the source. -/
def dockerAddress : String := "127.0.0.1"

/-- Constant `maxWaitTime` (5 seconds, in nanoseconds). -/
def maxWaitTime : Nat := 5000000000

/-- Constant `stepWaitTime` (10 milliseconds, in nanoseconds). -/
def stepWaitTime : Nat := 10000000

/-- Number of poll iterations a `for time.Now().Before(done)` loop with a
`step` sleep performs within `maxWait` (loop bodies instantaneous):
`⌈maxWait / step⌉`. -/
def stepsCount (maxWait step : Nat) : Nat := (maxWait + step - 1) / step

/-- Error message of `waitStarted` (the Go message appends the waiting
time, which nothing inspects). -/
def containerNotStartedMsg (containerID : String) : String :=
  "Container not started: " ++ containerID

/-- Error message of `waitReachable`. -/
def unreachableMsg (hostport : String) : String :=
  "Could not reach " ++ hostport

/-- Loop of `waitStarted` from the source, on fuel: inspect the
container; an inspection error BREAKS the loop (falling through to the
timeout error); `running = true` returns success; otherwise sleep a step
and retry until the deadline.  Returns the result together with the
number of inspection calls made. -/
def waitStartedFuel (inspect : Nat → Except String Bool) (containerID : String)
    (i : Nat) : Nat → Except String Unit × Nat
  | 0 => (.error (containerNotStartedMsg containerID), 0)
  | fuel + 1 =>
    match inspect i with
    | .error _ => (.error (containerNotStartedMsg containerID), 1)
    | .ok true => (.ok (), 1)
    | .ok false =>
      let r := waitStartedFuel inspect containerID (i + 1) fuel
      (r.1, r.2 + 1)

/-- Function `waitStarted` from the source. -/
def waitStarted (inspect : Nat → Except String Bool) (containerID : String)
    (maxWait : Nat) : Except String Unit × Nat :=
  waitStartedFuel inspect containerID 0 (stepsCount maxWait stepWaitTime)

/-- Loop of `waitReachable` from the source, on fuel: dial the endpoint;
on a successful dial return the result of closing the connection;
otherwise sleep a step and retry until the deadline.  Returns the result
together with the number of dial attempts made. -/
def waitReachableFuel (dial : Nat → Option (Except String Unit))
    (hostport : String) (i : Nat) : Nat → Except String Unit × Nat
  | 0 => (.error (unreachableMsg hostport), 0)
  | fuel + 1 =>
    match dial i with
    | some closeResult => (closeResult, 1)
    | none =>
      let r := waitReachableFuel dial hostport (i + 1) fuel
      (r.1, r.2 + 1)

/-- Function `waitReachable` from the source. -/
def waitReachable (dial : Nat → Option (Except String Unit))
    (hostport : String) (maxWait : Nat) : Except String Unit × Nat :=
  waitReachableFuel dial hostport 0 (stepsCount maxWait stepWaitTime)

/-- Function `waitContainer` from the source: first the process-state phase, then
(only if it succeeded) the reachability phase.  Returns the result, the
number of inspections, and the number of dial attempts. -/
def waitContainer (env : Env) (containerID hostport : String) (maxWait : Nat) :
    Except String Unit × Nat × Nat :=
  let s := waitStarted env.inspect containerID maxWait
  match s.1 with
  | .error e => (.error e, s.2, 0)
  | .ok () =>
    let r := waitReachable env.dial hostport maxWait
    (r.1, s.2, r.2)

/-- Whether the requested image tag is among the listed images
(`pullImage`'s search loop). -/
def tagFound (images : List (List String)) (image : String) : Bool :=
  images.any (fun tags => tags.any (fun t => t == image))

/-- Function `pullImage` from the source: list images; if the tag is present do
nothing, otherwise pull (the pull event-stream decoding loop is folded
into the pull oracle's result).  Also returns the engine calls made. -/
def pullImage (env : Env) (options : Options) :
    Except String Unit × List EngineCall :=
  match env.imageList with
  | .error e => (.error ("Listing images: " ++ e), [.imageList])
  | .ok images =>
    if tagFound images options.image then (.ok (), [.imageList])
    else
      match env.imagePull options.image with
      | .error e =>
        (.error ("Pulling image: " ++ options.image ++ ": " ++ e),
          [.imageList, .imagePull options.image])
      | .ok _ => (.ok (), [.imageList, .imagePull options.image])

/-- Result of `New`: the optional `ContainerInfo`, whether a teardown
closure was returned, the optional error, and the engine/network calls
made. -/
structure NewResult where
  info : Option ContainerInfo
  teardown : Bool
  err : Option String
  trace : List EngineCall

/-- Function `New` from the source, stage by stage: create the client, resolve the
image, validate the options, generate the name suffix, select ports,
translate bindings, create and start the container, then run the
readiness gate.  Every failure returns `(nil, nil, err)`. -/
def New (env : Env) (options : Options) : NewResult :=
  match env.newEnvClient with
  | .error e =>
    ⟨none, false, some ("MongoDB: Could not create docker client: " ++ e), []⟩
  | .ok _ =>
    let pull := pullImage env options
    match pull.1 with
    | .error e =>
      ⟨none, false, some ("Downloading image: " ++ options.image ++ ": " ++ e),
        pull.2⟩
    | .ok _ =>
      let ip := dockerAddress
      match checkOptions options with
      | .error _ =>
        ⟨none, false,
          some "Docker instance cannot be used without a external port", pull.2⟩
      | .ok _ =>
        match env.uuid with
        | .error e =>
          ⟨none, false,
            some ("generating docker suffix for " ++ options.name ++ ": " ++ e),
            pull.2⟩
        | .ok suffix =>
          let containerName := options.name ++ "-" ++ suffix
          match selectPorts env.parseInterval env.selectPort ip options.ports with
          | .error e =>
            ⟨none, false, some ("Selecting ports: " ++ e),
              pull.2 ++ [.selectPortsCall ip]⟩
          | .ok dockerPorts =>
            let portBindings := toDockerPortBindings ip dockerPorts
            let varDefinitions :=
              options.environmentVariables.map (fun kv => kv.1 ++ "=" ++ kv.2)
            let cfg : ContainerConfig :=
              ⟨options.image, toExposedPorts options.ports, varDefinitions,
                portBindings, containerName⟩
            let trace₁ := pull.2 ++ [.selectPortsCall ip,
              .containerCreate containerName]
            match env.containerCreate cfg with
            | .error e =>
              ⟨none, false,
                some ("Could not create container (" ++ containerName ++ "): " ++ e),
                trace₁⟩
            | .ok (containerID, _warnings) =>
              let trace₂ := trace₁ ++ [.containerStart containerID]
              match env.containerStart containerID with
              | .error e =>
                ⟨none, false,
                  some ("Could not start container (" ++ containerName ++ "): " ++ e),
                  trace₂⟩
              | .ok _ =>
                let reachablePorts :=
                  (assocLookup dockerPorts options.ports.headI).getD 0
                let hostport := dockerAddress ++ ":" ++ toString reachablePorts
                let w := waitContainer env containerID hostport maxWaitTime
                let trace₃ := trace₂ ++
                  List.replicate w.2.1 (.containerInspect containerID) ++
                  List.replicate w.2.2 (.dial hostport)
                match w.1 with
                | .error e =>
                  ⟨none, false,
                    some ("Container not started withing time limit: " ++ e),
                    trace₃⟩
                | .ok _ =>
                  ⟨some ⟨containerID, ip, dockerPorts⟩, true, none, trace₃⟩

/-! ## Concrete instances used by the witnesses -/

/-- A concrete interval interpreter defined on the two range expressions
used by the witnesses. -/
def cParse : String → Except String Interval := fun s =>
  if s = "40000-40010" then .ok ⟨40000, 40010⟩
  else if s = "50000-50010" then .ok ⟨50000, 50010⟩
  else .error "unparsed interval"

/-- A concrete port selector satisfying the selector contract: pick the
lower end of the interval. -/
def cSelect : String → Nat → Interval → List Int → Int :=
  fun _ _ iv _ => iv.min

/-- Concrete interval of each witness spec. -/
def cIvOf : PortBinding → Interval := fun b =>
  if b.externalInterval = "40000-40010" then ⟨40000, 40010⟩ else ⟨50000, 50010⟩

/-- Witness port spec on range 40000–40010. -/
def cPortA : PortBinding := ⟨"tcp", 80, "40000-40010"⟩

/-- Witness port spec on range 50000–50010. -/
def cPortB : PortBinding := ⟨"tcp", 81, "50000-50010"⟩

/-! ## C1 -/

/-- C1: For every call to `selectPorts` on a valid non-empty sequence
of port specs whose parsed ranges are pairwise disjoint and whose
selector honours its contract (it returns a port inside any nonempty
requested interval — the "large enough to satisfy demand" premise), the
returned assignment maps every spec to a port inside that spec's own
range, and ports assigned to distinct specs are pairwise distinct (in
particular no earlier spec's port is ever returned for a later spec). -/
theorem selectPorts_in_range_and_distinct
    (parse : String → Except String Interval)
    (select : String → Nat → Interval → List Int → Int)
    (address : String) (specs : List PortBinding) (ivOf : PortBinding → Interval)
    (hne : specs ≠ [])
    (hparse : ∀ b ∈ specs, parse b.externalInterval = .ok (ivOf b))
    (hsel : ∀ a k iv excl, iv.min ≤ iv.max →
      iv.min ≤ select a k iv excl ∧ select a k iv excl ≤ iv.max)
    (hvalid : ∀ b ∈ specs, (ivOf b).min ≤ (ivOf b).max)
    (hdisj : ∀ i j : Fin specs.length, i ≠ j → ∀ p : Int,
      ¬((ivOf (specs.get i)).min ≤ p ∧ p ≤ (ivOf (specs.get i)).max ∧
        (ivOf (specs.get j)).min ≤ p ∧ p ≤ (ivOf (specs.get j)).max)) :
    ∃ m, selectPorts parse select address specs = .ok m ∧
      (∀ i : Fin specs.length, ∃ p, assocLookup m (specs.get i) = some p ∧
        (ivOf (specs.get i)).min ≤ p ∧ p ≤ (ivOf (specs.get i)).max) ∧
      (∀ i j : Fin specs.length, i ≠ j → ∀ p q,
        assocLookup m (specs.get i) = some p →
        assocLookup m (specs.get j) = some q → p ≠ q) := by
  have heq := selectPortsGo_eq_buildMap parse select address ivOf specs hparse 0 [] []
  refine ⟨_, heq, ?_, ?_⟩
  · intro i
    have hm : specs.get i ∈ specs := List.get_mem specs i.1 i.2
    rw [buildMap_lookup_of_mem _ specs _ hm 0 []]
    refine ⟨_, rfl, ?_, ?_⟩
    · exact (hsel address _ _ [] (hvalid _ hm)).1
    · exact (hsel address _ _ [] (hvalid _ hm)).2
  · intro i j hij p q hp hq hpq
    have hmi : specs.get i ∈ specs := List.get_mem specs i.1 i.2
    have hmj : specs.get j ∈ specs := List.get_mem specs j.1 j.2
    rw [buildMap_lookup_of_mem _ specs _ hmi 0 []] at hp
    rw [buildMap_lookup_of_mem _ specs _ hmj 0 []] at hq
    have hip := (hsel address (0 + lastIdx (specs.get i) specs)
      (ivOf (specs.get i)) [] (hvalid _ hmi))
    have hjq := (hsel address (0 + lastIdx (specs.get j) specs)
      (ivOf (specs.get j)) [] (hvalid _ hmj))
    have hp' := Option.some_inj.mp hp
    have hq' := Option.some_inj.mp hq
    subst hp'
    subst hq'
    refine hdisj i j hij _ ⟨hip.1, hip.2, ?_, ?_⟩
    · rw [hpq]; exact hjq.1
    · rw [hpq]; exact hjq.2

/-- Witness for C1 at a concrete two-spec request with disjoint ranges. -/
theorem selectPorts_in_range_and_distinct_witness :
    ∃ m, selectPorts cParse cSelect dockerAddress [cPortA, cPortB] = .ok m ∧
      (∀ i : Fin 2, ∃ p, assocLookup m ([cPortA, cPortB].get i) = some p ∧
        (cIvOf ([cPortA, cPortB].get i)).min ≤ p ∧
        p ≤ (cIvOf ([cPortA, cPortB].get i)).max) ∧
      (∀ i j : Fin 2, i ≠ j → ∀ p q,
        assocLookup m ([cPortA, cPortB].get i) = some p →
        assocLookup m ([cPortA, cPortB].get j) = some q → p ≠ q) := by
  exact selectPorts_in_range_and_distinct cParse cSelect dockerAddress
    [cPortA, cPortB] cIvOf (by decide)
    (by intro b hb
        rcases List.mem_cons.mp hb with h | h
        · subst h; rfl
        · rcases List.mem_cons.mp h with h' | h'
          · subst h'; rfl
          · cases h')
    (fun a k iv excl h => ⟨le_refl _, h⟩)
    (by intro b hb
        rcases List.mem_cons.mp hb with h | h
        · subst h; decide
        · rcases List.mem_cons.mp h with h' | h'
          · subst h'; decide
          · cases h')
    (by intro i j hij p hp
        fin_cases i <;> fin_cases j <;> simp_all [cIvOf, cPortA, cPortB] <;> omega)

/-! ## C9 -/

/-- C9: If the spec list contains two structurally equal
`PortBinding` values, `selectPorts` still runs one selector call per
occurrence (call indices advance through every element), but both
selections are stored under the same map key: the returned assignment
has strictly fewer entries than the input has specs, holds exactly one
entry for the duplicated spec, and that entry carries the selection made
at the later occurrence (here the occurrence at position
`l₁.length + 1 + l₂.length`, which overwrites the earlier one). -/
theorem selectPorts_duplicate_overwrites
    (parse : String → Except String Interval)
    (select : String → Nat → Interval → List Int → Int)
    (address : String) (l₁ l₂ l₃ : List PortBinding) (b : PortBinding)
    (ivOf : PortBinding → Interval)
    (hparse : ∀ x ∈ l₁ ++ b :: l₂ ++ b :: l₃,
      parse x.externalInterval = .ok (ivOf x))
    (hlast : b ∉ l₃) :
    ∃ m, selectPorts parse select address (l₁ ++ b :: l₂ ++ b :: l₃) = .ok m ∧
      m.length < (l₁ ++ b :: l₂ ++ b :: l₃).length ∧
      m.countP (fun q => decide (q.1 = b)) = 1 ∧
      assocLookup m b =
        some (select address (l₁.length + 1 + l₂.length) (ivOf b) []) := by
  have heq := selectPortsGo_eq_buildMap parse select address ivOf _ hparse 0 [] []
  refine ⟨_, heq, ?_, ?_, ?_⟩
  · have hsplit : l₁ ++ b :: l₂ ++ b :: l₃ = (l₁ ++ [b]) ++ (l₂ ++ b :: l₃) := by
      simp
    rw [hsplit, buildMap_append]
    have hbx : b ∈ l₁ ++ [b] := List.mem_append.mpr (Or.inr (by simp))
    have hby : b ∈ l₂ ++ b :: l₃ :=
      List.mem_append.mpr (Or.inr (List.mem_cons_self b l₃))
    have hacc : (assocLookup (buildMap (fun j x => select address j (ivOf x) [])
        0 [] (l₁ ++ [b])) b).isSome := by
      rw [buildMap_lookup_of_mem _ _ _ hbx 0 []]; rfl
    have h1 := buildMap_length_of_mem (fun j x => select address j (ivOf x) [])
      (l₂ ++ b :: l₃) b hby (0 + (l₁ ++ [b]).length)
      (buildMap (fun j x => select address j (ivOf x) []) 0 [] (l₁ ++ [b])) hacc
    have h2 := buildMap_length_le (fun j x => select address j (ivOf x) [])
      (l₁ ++ [b]) 0 []
    simp only [List.length_append, List.length_cons, List.length_nil] at h1 h2 ⊢
    omega
  · apply assocCount_eq_one
    · exact buildMap_keys_nodup _ _ 0 [] (by simp [assocKeys])
    · rw [buildMap_lookup_of_mem _ _ b
        (List.mem_append.mpr (Or.inr (List.mem_cons_self b l₃))) 0 []]
      rfl
  · rw [buildMap_lookup_of_mem _ _ b
      (List.mem_append.mpr (Or.inr (List.mem_cons_self b l₃))) 0 []]
    have e1 : lastIdx b (l₁ ++ b :: l₂ ++ b :: l₃) =
        (l₁ ++ b :: l₂).length + lastIdx b (b :: l₃) :=
      lastIdx_append_of_mem b (l₁ ++ b :: l₂) _ (List.mem_cons_self b l₃)
    have e4 : lastIdx b (b :: l₃) = 0 := by simp [lastIdx, hlast]
    have e : 0 + lastIdx b (l₁ ++ b :: l₂ ++ b :: l₃) =
        l₁.length + 1 + l₂.length := by
      rw [e1, e4]
      simp only [List.length_append, List.length_cons]
      omega
    rw [e]

/-- Witness for C9: the two-element list repeating one spec yields a
one-entry assignment holding the second (index-1) selection. -/
theorem selectPorts_duplicate_overwrites_witness :
    ∃ m, selectPorts cParse cSelect dockerAddress [cPortA, cPortA] = .ok m ∧
      m.length < 2 ∧
      m.countP (fun q => decide (q.1 = cPortA)) = 1 ∧
      assocLookup m cPortA = some (cSelect dockerAddress 1 (cIvOf cPortA) []) := by
  exact selectPorts_duplicate_overwrites cParse cSelect dockerAddress
    [] [] [] cPortA cIvOf
    (by intro x hx
        rcases List.mem_cons.mp hx with h | h
        · subst h; rfl
        · rcases List.mem_cons.mp h with h' | h'
          · subst h'; rfl
          · cases h')
    (by simp)

/-! ## C2 -/

/-- Inspection oracle whose first call errors and which would report the
process running on any retry. -/
def cInspectErr : Nat → Except String Bool := fun i =>
  if i = 0 then .error "engine unreachable" else .ok true

/-- C2 counterexample: The first inspection errors (engine
unreachable) while an immediate retry would have reported the process
running, and the budget allows hundreds of further polls; yet
`waitStarted` stops after exactly one inspection and returns
`ContainerNotStartedError` — the inspection error terminates the loop
long before the timeout, refuting the claim that such errors are
transient. -/
theorem waitStarted_error_terminates_early :
    waitStarted cInspectErr "cid" maxWaitTime =
      (.error (containerNotStartedMsg "cid"), 1) ∧
    cInspectErr 1 = .ok true ∧
    1 < stepsCount maxWaitTime stepWaitTime := by
  refine ⟨rfl, rfl, by decide⟩

theorem waitStartedFuel_error_stops (inspect : Nat → Except String Bool)
    (cid : String) :
    ∀ fuel i k e, k < fuel → (∀ j, j < k → inspect (i + j) = .ok false) →
      inspect (i + k) = .error e →
      waitStartedFuel inspect cid i fuel =
        (.error (containerNotStartedMsg cid), k + 1) := by
  intro fuel
  induction fuel with
  | zero => intro i k e hk; omega
  | succ f ih =>
    intro i k e hk hbefore herr
    cases k with
    | zero =>
      have h0 : inspect i = .error e := by simpa using herr
      simp [waitStartedFuel, h0]
    | succ k' =>
      have h0 : inspect i = .ok false := by
        have := hbefore 0 (by omega)
        simpa using this
      have hb' : ∀ j, j < k' → inspect (i + 1 + j) = .ok false := by
        intro j hj
        have := hbefore (j + 1) (by omega)
        have harith : i + (j + 1) = i + 1 + j := by omega
        rwa [harith] at this
      have he' : inspect (i + 1 + k') = .error e := by
        have harith : i + (k' + 1) = i + 1 + k' := by omega
        rwa [harith] at herr
      have := ih (i + 1) k' e (by omega) hb' he'
      simp [waitStartedFuel, h0, this]

/-- C2 amended: During the Created→ProcessRunning phase an
inspection error is terminal, not transient: if the first `k`
inspections report not-running and inspection `k` errors (with `k` still
inside the wait budget), the polling loop stops right there — `k + 1`
inspections in total — and `waitStarted` returns
`ContainerNotStartedError` immediately, folding the inspection error
away; it does not keep retrying until the timeout. -/
theorem waitStarted_error_breaks_loop (inspect : Nat → Except String Bool)
    (cid : String) (k : Nat) (e : String)
    (hk : k < stepsCount maxWaitTime stepWaitTime)
    (hbefore : ∀ j, j < k → inspect j = .ok false)
    (herr : inspect k = .error e) :
    waitStarted inspect cid maxWaitTime =
      (.error (containerNotStartedMsg cid), k + 1) := by
  unfold waitStarted
  refine waitStartedFuel_error_stops inspect cid _ 0 k e hk ?_ ?_
  · intro j hj; simpa using hbefore j hj
  · simpa using herr

/-- Inspection oracle: two not-running reports, then an error. -/
def cInspectLater : Nat → Except String Bool := fun i =>
  if i < 2 then .ok false else .error "engine glitch"

/-- Witness for the amended C2: with two not-running reports followed by
an inspection error, the loop stops after the third inspection. -/
theorem waitStarted_error_breaks_loop_witness :
    waitStarted cInspectLater "cid" maxWaitTime =
      (.error (containerNotStartedMsg "cid"), 3) := by
  exact waitStarted_error_breaks_loop cInspectLater "cid" 2 "engine glitch"
    (by decide)
    (by intro j hj
        interval_cases j <;> rfl)
    rfl

/-! ## C8 -/

/-- Dial oracle whose first dial connects but whose `Close` errors. -/
def cDialBadClose : Nat → Option (Except String Unit) := fun i =>
  if i = 0 then some (.error "close failed") else none

/-- C8 counterexample: When the first dial connects but closing the
connection fails, `waitReachable` terminates with the close error — an
outcome that is neither success nor the typed timeout error
(`ServiceUnreachableError`), refuting the claim that each loop ends in
success or a typed timeout error. -/
theorem waitReachable_close_error_outcome :
    waitReachable cDialBadClose "127.0.0.1:40000" maxWaitTime =
      (.error "close failed", 1) ∧
    (Except.error "close failed" : Except String Unit) ≠ .ok () ∧
    "close failed" ≠ unreachableMsg "127.0.0.1:40000" := by
  refine ⟨rfl, by simp, by decide⟩

theorem waitStartedFuel_bounded (inspect : Nat → Except String Bool)
    (cid : String) :
    ∀ fuel i, (waitStartedFuel inspect cid i fuel).2 ≤ fuel ∧
      ((waitStartedFuel inspect cid i fuel).1 = .ok () ∨
        (waitStartedFuel inspect cid i fuel).1 =
          .error (containerNotStartedMsg cid)) := by
  intro fuel
  induction fuel with
  | zero => intro i; exact ⟨le_refl _, Or.inr rfl⟩
  | succ f ih =>
    intro i
    cases h : inspect i with
    | error e => simp [waitStartedFuel, h]
    | ok b =>
      cases b with
      | true => simp [waitStartedFuel, h]
      | false =>
        have hr := ih (i + 1)
        simp only [waitStartedFuel, h]
        refine ⟨?_, ?_⟩
        · have h1 := hr.1
          omega
        · exact hr.2

theorem waitReachableFuel_bounded (dial : Nat → Option (Except String Unit))
    (hostport : String) :
    ∀ fuel i, (waitReachableFuel dial hostport i fuel).2 ≤ fuel ∧
      ((waitReachableFuel dial hostport i fuel).1 =
          .error (unreachableMsg hostport) ∨
        ∃ k, i ≤ k ∧ k < i + fuel ∧
          dial k = some (waitReachableFuel dial hostport i fuel).1) := by
  intro fuel
  induction fuel with
  | zero => intro i; exact ⟨le_refl _, Or.inl rfl⟩
  | succ f ih =>
    intro i
    cases h : dial i with
    | some closeResult =>
      simp only [waitReachableFuel, h]
      exact ⟨by omega, Or.inr ⟨i, le_refl _, by omega, h⟩⟩
    | none =>
      have hr := ih (i + 1)
      simp only [waitReachableFuel, h]
      refine ⟨?_, ?_⟩
      · have h1 := hr.1
        omega
      · rcases hr.2 with h1 | ⟨k, hk1, hk2, hk3⟩
        · exact Or.inl h1
        · exact Or.inr ⟨k, by omega, by omega, hk3⟩

/-- C8 amended: Both readiness-gate polling loops use the same step
interval and independently allotted budgets of `maxWaitTime`, and each
performs at most `⌈maxWaitTime / stepWaitTime⌉` attempts before
terminating; the process-state phase always ends in success or in
`ContainerNotStartedError`, while the network phase ends in
`ServiceUnreachableError` at timeout or otherwise returns the result of
closing the first successfully-dialed connection (which is success when
the close succeeds, but can also be the close error — not a typed
timeout).  There is no unbounded retry. -/
theorem waitLoops_bounded (inspect : Nat → Except String Bool)
    (dial : Nat → Option (Except String Unit)) (cid hostport : String) :
    (waitStarted inspect cid maxWaitTime).2 ≤
        stepsCount maxWaitTime stepWaitTime ∧
    ((waitStarted inspect cid maxWaitTime).1 = .ok () ∨
      (waitStarted inspect cid maxWaitTime).1 =
        .error (containerNotStartedMsg cid)) ∧
    (waitReachable dial hostport maxWaitTime).2 ≤
        stepsCount maxWaitTime stepWaitTime ∧
    ((waitReachable dial hostport maxWaitTime).1 =
        .error (unreachableMsg hostport) ∨
      ∃ k, k < stepsCount maxWaitTime stepWaitTime ∧
        dial k = some (waitReachable dial hostport maxWaitTime).1) := by
  have h1 := waitStartedFuel_bounded inspect cid
    (stepsCount maxWaitTime stepWaitTime) 0
  have h2 := waitReachableFuel_bounded dial hostport
    (stepsCount maxWaitTime stepWaitTime) 0
  refine ⟨h1.1, h1.2, h2.1, ?_⟩
  rcases h2.2 with h | ⟨k, _, hk2, hk3⟩
  · exact Or.inl h
  · exact Or.inr ⟨k, by omega, hk3⟩

/-! ## C4 -/

/-- C4 counterexample: For a one-entry assignment the engine
port-binding declaration produced by `toDockerPortBindings` carries an
EMPTY host address (`HostIP` is left unset in the source — the
`"0.0.0.0"` assignment is commented out), which the engine treats as an
unrestricted all-interfaces binding; it does not carry the target
address `127.0.0.1`, refuting the claim. -/
theorem toDockerPortBindings_ignores_address :
    toDockerPortBindings dockerAddress [(cPortA, 40000)] =
      [("80/tcp", [⟨"", "40000"⟩])] ∧
    ("" : String) ≠ dockerAddress := by
  refine ⟨rfl, by decide⟩

theorem toDockerAux_lookup_of_absent (address : String)
    (l : List (PortBinding × Int)) (k : String)
    (h : ∀ q ∈ l, natPort q.1 ≠ k) :
    ∀ acc, assocLookup (toDockerPortBindingsAux address acc l) k =
      assocLookup acc k := by
  induction l with
  | nil => intro acc; rfl
  | cons q rest ih =>
    intro acc
    simp only [toDockerPortBindingsAux]
    rw [ih (fun x hx => h x (List.mem_cons.mpr (Or.inr hx)))]
    exact assocLookup_insert_ne _ _ _ _
      (fun hc => h q (List.mem_cons_self q rest) hc.symm)

theorem toDockerAux_lookup (address : String) (l : List (PortBinding × Int))
    (b : PortBinding) (p : Int) (hmem : (b, p) ∈ l)
    (hlast : ∀ q ∈ l, natPort q.1 = natPort b → q = (b, p)) :
    ∀ acc, assocLookup (toDockerPortBindingsAux address acc l) (natPort b) =
      some [⟨"", toString p⟩] := by
  induction l with
  | nil => cases hmem
  | cons q rest ih =>
    intro acc
    by_cases hr : (b, p) ∈ rest
    · exact ih hr (fun x hx hk => hlast x (List.mem_cons.mpr (Or.inr hx)) hk) _
    · have hq : q = (b, p) := by
        rcases List.mem_cons.mp hmem with h | h
        · exact h.symm
        · exact absurd h hr
      subst hq
      simp only [toDockerPortBindingsAux]
      have habsent : ∀ x ∈ rest, natPort x.1 ≠ natPort b := by
        intro x hx hk
        exact hr ((hlast x (List.mem_cons.mpr (Or.inr hx)) hk) ▸ hx)
      rw [toDockerAux_lookup_of_absent address rest (natPort b) habsent]
      exact assocLookup_insert_self _ _ _

/-- C4 amended: Every internal port/protocol pair of the request is
declared exposed, and every internal port is bound to exactly its
assigned external port — but the host-side binding declaration carries an
empty host address (engine default: all interfaces), not the target
address; the `address` argument of `toDockerPortBindings` is unused. -/
theorem portTranslation_exposes_and_binds (address : String)
    (ports : List PortBinding) (assignment : List (PortBinding × Int))
    (b : PortBinding) (p : Int)
    (hb : b ∈ ports) (hmem : (b, p) ∈ assignment)
    (huniq : ∀ q ∈ assignment, natPort q.1 = natPort b → q = (b, p)) :
    natPort b ∈ toExposedPorts ports ∧
    assocLookup (toDockerPortBindings address assignment) (natPort b) =
      some [⟨"", toString p⟩] := by
  constructor
  · exact List.mem_map.mpr ⟨b, hb, rfl⟩
  · exact toDockerAux_lookup address assignment b p hmem huniq []

/-- Witness for the amended C4 at a one-spec request. -/
theorem portTranslation_exposes_and_binds_witness :
    natPort cPortA ∈ toExposedPorts [cPortA] ∧
    assocLookup (toDockerPortBindings dockerAddress [(cPortA, 40000)])
      (natPort cPortA) = some [⟨"", toString (40000 : Int)⟩] := by
  exact portTranslation_exposes_and_binds dockerAddress [cPortA]
    [(cPortA, 40000)] cPortA 40000
    (List.mem_cons_self cPortA [])
    (List.mem_cons_self (cPortA, 40000) [])
    (by intro q hq hk
        rcases List.mem_cons.mp hq with h | h
        · exact h
        · cases h)

/-! ## C6 -/

theorem pullImage_trace_shape (env : Env) (options : Options) :
    ∀ c ∈ (pullImage env options).2,
      c = .imageList ∨ c = .imagePull options.image := by
  intro c hc
  unfold pullImage at hc
  cases h1 : env.imageList with
  | error e =>
    rw [h1] at hc
    simp at hc
    exact Or.inl hc
  | ok images =>
    rw [h1] at hc
    by_cases h2 : tagFound images options.image
    · simp [h2] at hc
      exact Or.inl hc
    · cases h3 : env.imagePull options.image with
      | error e =>
        rw [h3] at hc
        simp [h2] at hc
        exact hc
      | ok u =>
        rw [h3] at hc
        simp [h2] at hc
        exact hc

/-- C6: `New` returns exactly one of two shapes: on full success a
container handle together with a teardown closure and no error; on any
failure path a single error with no handle and no teardown closure.  A
non-`none` handle or a teardown closure is never paired with an error. -/
theorem New_single_error_or_success (env : Env) (options : Options) :
    ((New env options).err = none ∧ (∃ i, (New env options).info = some i) ∧
      (New env options).teardown = true) ∨
    ((∃ e, (New env options).err = some e) ∧ (New env options).info = none ∧
      (New env options).teardown = false) := by
  simp only [New]
  repeat' split
  all_goals first
    | exact Or.inr ⟨⟨_, rfl⟩, rfl, rfl⟩
    | exact Or.inl ⟨rfl, ⟨_, rfl⟩, rfl⟩

/-! ## C3 -/

/-- Engine oracle for the C3 scenario: healthy client, the requested
image already present, everything else would also succeed. -/
def cEnvHealthy : Env where
  newEnvClient := .ok ()
  imageList := .ok [["img:latest"]]
  imagePull := fun _ => .ok ()
  uuid := .ok "u"
  containerCreate := fun _ => .ok ("cid1", [])
  containerStart := fun _ => .ok ()
  inspect := fun _ => .ok true
  dial := fun _ => some (.ok ())
  parseInterval := cParse
  selectPort := cSelect

/-- Options with an empty port list. -/
def cOptsEmptyPorts : Options := ⟨"svc", "img:latest", [], []⟩

/-- C3 counterexample: With an empty `Ports` list `New` does fail
with the validation error, but only AFTER having called the engine:
`ImageList` is in the trace of the failed call, refuting the claim that
the failure happens before any engine call. -/
theorem New_emptyPorts_calls_engine_first :
    (New cEnvHealthy cOptsEmptyPorts).err =
      some "Docker instance cannot be used without a external port" ∧
    EngineCall.imageList ∈ (New cEnvHealthy cOptsEmptyPorts).trace := by
  refine ⟨rfl, ?_⟩
  exact List.Mem.head _

/-- C3 amended: With a nil or empty `Ports` list `New` returns no
handle and no teardown closure, never reaches port selection, container
creation, start, inspection, or dialing (every traced call is the image
listing or the image pull), and — provided client creation and image
resolution succeed — fails with the `ValidationError` message.  The
validation failure occurs after the image listing/pull engine calls, not
before them. -/
theorem New_emptyPorts_validation (env : Env) (options : Options)
    (hports : options.ports = []) :
    (New env options).info = none ∧
    (New env options).teardown = false ∧
    (∀ c ∈ (New env options).trace,
      c = .imageList ∨ c = .imagePull options.image) ∧
    (env.newEnvClient = .ok () → (pullImage env options).1 = .ok () →
      (New env options).err =
        some "Docker instance cannot be used without a external port") := by
  have hchk : checkOptions options =
      .error "At least one port should be open for external communication" := by
    simp [checkOptions, hports]
  cases hclient : env.newEnvClient with
  | error e =>
    have hres : New env options =
        ⟨none, false, some ("MongoDB: Could not create docker client: " ++ e),
          []⟩ := by
      simp only [New, hclient]
    rw [hres]
    refine ⟨rfl, rfl, ?_, ?_⟩
    · intro c hc; cases hc
    · intro hcl _; exact Except.noConfusion hcl
  | ok u =>
    cases hpull : (pullImage env options).1 with
    | error e =>
      have hres : New env options =
          ⟨none, false,
            some ("Downloading image: " ++ options.image ++ ": " ++ e),
            (pullImage env options).2⟩ := by
        simp only [New, hclient, hpull]
      rw [hres]
      refine ⟨rfl, rfl, ?_, ?_⟩
      · exact pullImage_trace_shape env options
      · intro _ hp; exact Except.noConfusion hp
    | ok u2 =>
      have hres : New env options =
          ⟨none, false,
            some "Docker instance cannot be used without a external port",
            (pullImage env options).2⟩ := by
        simp only [New, hclient, hpull, hchk]
      rw [hres]
      exact ⟨rfl, rfl, pullImage_trace_shape env options, fun _ _ => rfl⟩

/-- Witness for the amended C3, at a concrete healthy engine and empty
port list: no handle, no teardown, only image-resolution calls traced,
validation error returned. -/
theorem New_emptyPorts_validation_witness :
    (New cEnvHealthy cOptsEmptyPorts).info = none ∧
    (New cEnvHealthy cOptsEmptyPorts).teardown = false ∧
    (∀ c ∈ (New cEnvHealthy cOptsEmptyPorts).trace,
      c = .imageList ∨ c = .imagePull cOptsEmptyPorts.image) ∧
    (cEnvHealthy.newEnvClient = .ok () →
      (pullImage cEnvHealthy cOptsEmptyPorts).1 = .ok () →
      (New cEnvHealthy cOptsEmptyPorts).err =
        some "Docker instance cannot be used without a external port") := by
  exact New_emptyPorts_validation cEnvHealthy cOptsEmptyPorts rfl

/-! ## C5 -/

theorem waitStartedFuel_never_running (inspect : Nat → Except String Bool)
    (cid : String) :
    ∀ fuel i, (∀ j, i ≤ j → j < i + fuel → inspect j ≠ .ok true) →
      (waitStartedFuel inspect cid i fuel).1 =
        .error (containerNotStartedMsg cid) := by
  intro fuel
  induction fuel with
  | zero => intro i _; rfl
  | succ f ih =>
    intro i hnever
    cases h : inspect i with
    | error e => simp [waitStartedFuel, h]
    | ok b =>
      cases b with
      | true => exact absurd h (hnever i (le_refl i) (by omega))
      | false =>
        have := ih (i + 1) (fun j hj1 hj2 => hnever j (by omega) (by omega))
        simp [waitStartedFuel, h, this]

theorem waitContainer_not_started (env : Env) (cid hostport : String)
    (hnever : ∀ j, j < stepsCount maxWaitTime stepWaitTime →
      env.inspect j ≠ .ok true) :
    (waitContainer env cid hostport maxWaitTime).1 =
      .error (containerNotStartedMsg cid) ∧
    (waitContainer env cid hostport maxWaitTime).2.2 = 0 := by
  have hws : (waitStarted env.inspect cid maxWaitTime).1 =
      .error (containerNotStartedMsg cid) :=
    waitStartedFuel_never_running env.inspect cid _ 0
      (fun j hj1 hj2 => hnever j (by omega))
  unfold waitContainer
  dsimp only
  rw [hws]
  exact ⟨rfl, rfl⟩

theorem pullImage_no_dial (env : Env) (options : Options) (hp : String) :
    EngineCall.dial hp ∉ (pullImage env options).2 := by
  intro hmem
  rcases pullImage_trace_shape env options _ hmem with h | h <;>
    exact EngineCall.noConfusion h

theorem pullImage_no_selectPortsCall (env : Env) (options : Options)
    (a : String) :
    EngineCall.selectPortsCall a ∉ (pullImage env options).2 := by
  intro hmem
  rcases pullImage_trace_shape env options _ hmem with h | h <;>
    exact EngineCall.noConfusion h

/-- C5: If no inspection within the wait budget ever reports the
process running, the readiness gate fails with
`ContainerNotStartedError`, the network phase performs zero dial
attempts, and no TCP dial call appears in the trace of the whole `New`
call. -/
theorem New_notStarted_never_probes (env : Env) (options : Options)
    (cid hostport : String)
    (hnever : ∀ j, j < stepsCount maxWaitTime stepWaitTime →
      env.inspect j ≠ .ok true) :
    (waitContainer env cid hostport maxWaitTime).1 =
      .error (containerNotStartedMsg cid) ∧
    (waitContainer env cid hostport maxWaitTime).2.2 = 0 ∧
    ∀ hp, EngineCall.dial hp ∉ (New env options).trace := by
  refine ⟨(waitContainer_not_started env cid hostport hnever).1,
    (waitContainer_not_started env cid hostport hnever).2, ?_⟩
  intro hp
  simp only [New]
  repeat' split
  all_goals
    first
      | (rw [(waitContainer_not_started env _ _ hnever).2]
         simp [pullImage_no_dial env options hp])
      | simp [pullImage_no_dial env options hp]

/-- Environment whose inspections always report not-running. -/
def cEnvNoStart : Env :=
  { cEnvHealthy with inspect := fun _ => .ok false }

/-- Witness for C5 at a concrete environment that never reports the
process running. -/
theorem New_notStarted_never_probes_witness :
    (waitContainer cEnvNoStart "cid1" "127.0.0.1:40000" maxWaitTime).1 =
      .error (containerNotStartedMsg "cid1") ∧
    (waitContainer cEnvNoStart "cid1" "127.0.0.1:40000" maxWaitTime).2.2 = 0 ∧
    ∀ hp, EngineCall.dial hp ∉
      (New cEnvNoStart ⟨"svc", "img:latest", [cPortA], []⟩).trace := by
  exact New_notStarted_never_probes cEnvNoStart
    ⟨"svc", "img:latest", [cPortA], []⟩ "cid1" "127.0.0.1:40000"
    (fun j hj => by simp [cEnvNoStart, cEnvHealthy])

/-! ## Success-path characterization of `New` (shared by C7 and C10) -/

theorem New_success_shape (env : Env) (options : Options)
    (info : ContainerInfo) (hinfo : (New env options).info = some info) :
    info.address = dockerAddress ∧
    ∃ createName n₁ n₂,
      (New env options).trace =
        (pullImage env options).2 ++
          [.selectPortsCall dockerAddress, .containerCreate createName] ++
          [.containerStart info.identifier] ++
          List.replicate n₁ (.containerInspect info.identifier) ++
          List.replicate n₂ (.dial (dockerAddress ++ ":" ++
            toString ((assocLookup info.ports options.ports.headI).getD 0))) := by
  cases h1 : env.newEnvClient with
  | error e =>
    have hnone : (New env options).info = none := by simp only [New, h1]
    rw [hnone] at hinfo; exact absurd hinfo (by simp)
  | ok u =>
  cases h2 : (pullImage env options).1 with
  | error e =>
    have hnone : (New env options).info = none := by simp only [New, h1, h2]
    rw [hnone] at hinfo; exact absurd hinfo (by simp)
  | ok u2 =>
  cases h3 : checkOptions options with
  | error e =>
    have hnone : (New env options).info = none := by simp only [New, h1, h2, h3]
    rw [hnone] at hinfo; exact absurd hinfo (by simp)
  | ok u3 =>
  cases h4 : env.uuid with
  | error e =>
    have hnone : (New env options).info = none := by
      simp only [New, h1, h2, h3, h4]
    rw [hnone] at hinfo; exact absurd hinfo (by simp)
  | ok suffix =>
  cases h5 : selectPorts env.parseInterval env.selectPort dockerAddress
      options.ports with
  | error e =>
    have hnone : (New env options).info = none := by
      simp only [New, h1, h2, h3, h4, h5]
    rw [hnone] at hinfo; exact absurd hinfo (by simp)
  | ok dockerPorts =>
  cases h6 : env.containerCreate ⟨options.image, toExposedPorts options.ports,
      options.environmentVariables.map (fun kv => kv.1 ++ "=" ++ kv.2),
      toDockerPortBindings dockerAddress dockerPorts,
      options.name ++ "-" ++ suffix⟩ with
  | error e =>
    have hnone : (New env options).info = none := by
      simp only [New, h1, h2, h3, h4, h5, h6]
    rw [hnone] at hinfo; exact absurd hinfo (by simp)
  | ok idw =>
  obtain ⟨cid, warns⟩ := idw
  cases h7 : env.containerStart cid with
  | error e =>
    have hnone : (New env options).info = none := by
      simp only [New, h1, h2, h3, h4, h5, h6, h7]
    rw [hnone] at hinfo; exact absurd hinfo (by simp)
  | ok u7 =>
  cases h8 : (waitContainer env cid (dockerAddress ++ ":" ++
      toString ((assocLookup dockerPorts options.ports.headI).getD 0))
      maxWaitTime).1 with
  | error e =>
    have hnone : (New env options).info = none := by
      simp only [New, h1, h2, h3, h4, h5, h6, h7, h8]
    rw [hnone] at hinfo; exact absurd hinfo (by simp)
  | ok u8 =>
    have hres : New env options =
        ⟨some ⟨cid, dockerAddress, dockerPorts⟩, true, none,
          (pullImage env options).2 ++ [.selectPortsCall dockerAddress,
            .containerCreate (options.name ++ "-" ++ suffix)] ++
          [.containerStart cid] ++
          List.replicate (waitContainer env cid (dockerAddress ++ ":" ++
            toString ((assocLookup dockerPorts options.ports.headI).getD 0))
            maxWaitTime).2.1 (.containerInspect cid) ++
          List.replicate (waitContainer env cid (dockerAddress ++ ":" ++
            toString ((assocLookup dockerPorts options.ports.headI).getD 0))
            maxWaitTime).2.2 (.dial (dockerAddress ++ ":" ++
              toString ((assocLookup dockerPorts options.ports.headI).getD 0)))⟩ := by
      simp only [New, h1, h2, h3, h4, h5, h6, h7, h8]
    rw [hres] at hinfo
    have hinfoeq : info = ⟨cid, dockerAddress, dockerPorts⟩ :=
      (Option.some_inj.mp hinfo).symm
    subst hinfoeq
    rw [hres]
    exact ⟨rfl, options.name ++ "-" ++ suffix, _, _, rfl⟩

theorem waitReachableFuel_first_success
    (dial : Nat → Option (Except String Unit)) (hostport : String) :
    ∀ fuel i k r, k < fuel → (∀ j, j < k → dial (i + j) = none) →
      dial (i + k) = some r →
      waitReachableFuel dial hostport i fuel = (r, k + 1) := by
  intro fuel
  induction fuel with
  | zero => intro i k r hk; omega
  | succ f ih =>
    intro i k r hk hbefore hsucc
    cases k with
    | zero =>
      have h0 : dial i = some r := by simpa using hsucc
      simp [waitReachableFuel, h0]
    | succ k' =>
      have h0 : dial i = none := by simpa using hbefore 0 (by omega)
      have hb' : ∀ j, j < k' → dial (i + 1 + j) = none := by
        intro j hj
        have hx := hbefore (j + 1) (by omega)
        have harith : i + (j + 1) = i + 1 + j := by omega
        rwa [harith] at hx
      have hs' : dial (i + 1 + k') = some r := by
        have harith : i + (k' + 1) = i + 1 + k' := by omega
        rwa [harith] at hsucc
      have := ih (i + 1) k' r (by omega) hb' hs'
      simp [waitReachableFuel, h0, this]

/-! ## C7 -/

/-- Options with the single witness port spec. -/
def cOptsOne : Options := ⟨"svc", "img:latest", [cPortA], []⟩

/-- C7: On a successful call, the only endpoint ever dialed is the
target address paired with the external port assigned to the FIRST
declared port spec (`Ports[0]`); no other declared port is probed.  The
network phase stops at the first successful dial, returning the result
of immediately closing that connection after `k + 1` attempts when the
first `k` dials failed. -/
theorem New_probes_only_first_port (env : Env) (options : Options)
    (info : ContainerInfo)
    (hinfo : (New env options).info = some info) :
    (∀ hp, EngineCall.dial hp ∈ (New env options).trace →
      hp = dockerAddress ++ ":" ++
        toString ((assocLookup info.ports options.ports.headI).getD 0)) ∧
    (∀ k r, k < stepsCount maxWaitTime stepWaitTime →
      (∀ j, j < k → env.dial j = none) → env.dial k = some r →
      waitReachable env.dial
        (dockerAddress ++ ":" ++
          toString ((assocLookup info.ports options.ports.headI).getD 0))
        maxWaitTime = (r, k + 1)) := by
  constructor
  · intro hp hmem
    obtain ⟨-, name, n₁, n₂, htr⟩ := New_success_shape env options info hinfo
    rw [htr] at hmem
    simp [List.mem_append, List.mem_replicate,
      pullImage_no_dial env options hp] at hmem
    exact hmem.2
  · intro k r hk hbefore hsucc
    unfold waitReachable
    refine waitReachableFuel_first_success env.dial _ _ 0 k r hk ?_ ?_
    · intro j hj; simpa using hbefore j hj
    · simpa using hsucc

/-- Witness for C7 at a concrete successful provisioning call. -/
theorem New_probes_only_first_port_witness :
    (∀ hp, EngineCall.dial hp ∈ (New cEnvHealthy cOptsOne).trace →
      hp = dockerAddress ++ ":" ++
        toString ((assocLookup (⟨"cid1", "127.0.0.1",
          [(cPortA, 40000)]⟩ : ContainerInfo).ports
          cOptsOne.ports.headI).getD 0)) ∧
    (∀ k r, k < stepsCount maxWaitTime stepWaitTime →
      (∀ j, j < k → cEnvHealthy.dial j = none) → cEnvHealthy.dial k = some r →
      waitReachable cEnvHealthy.dial
        (dockerAddress ++ ":" ++
          toString ((assocLookup (⟨"cid1", "127.0.0.1",
            [(cPortA, 40000)]⟩ : ContainerInfo).ports
            cOptsOne.ports.headI).getD 0))
        maxWaitTime = (r, k + 1)) := by
  exact New_probes_only_first_port cEnvHealthy cOptsOne
    ⟨"cid1", "127.0.0.1", [(cPortA, 40000)]⟩ rfl

/-! ## C10 -/

/-- C10: The target address is not caller-configurable: `Options`
carries no address, and every successful `New` returns a handle whose
address is the hardcoded loopback `127.0.0.1`; the same constant is the
address handed to the port selector and the host part of every readiness
dial. -/
theorem New_address_hardcoded (env : Env) (options : Options)
    (info : ContainerInfo)
    (hinfo : (New env options).info = some info) :
    info.address = "127.0.0.1" ∧
    (∀ a, EngineCall.selectPortsCall a ∈ (New env options).trace →
      a = "127.0.0.1") ∧
    (∀ hp, EngineCall.dial hp ∈ (New env options).trace →
      ∃ p : Int, hp = "127.0.0.1" ++ ":" ++ toString p) := by
  obtain ⟨haddr, name, n₁, n₂, htr⟩ := New_success_shape env options info hinfo
  refine ⟨haddr, ?_, ?_⟩
  · intro a hmem
    rw [htr] at hmem
    simp [List.mem_append, List.mem_replicate,
      pullImage_no_selectPortsCall env options a] at hmem
    exact hmem
  · intro hp hmem
    rw [htr] at hmem
    simp [List.mem_append, List.mem_replicate,
      pullImage_no_dial env options hp] at hmem
    exact ⟨(assocLookup info.ports options.ports.headI).getD 0, hmem.2⟩

/-- Witness for C10 at a concrete successful provisioning call. -/
theorem New_address_hardcoded_witness :
    (⟨"cid1", "127.0.0.1", [(cPortA, 40000)]⟩ : ContainerInfo).address =
      "127.0.0.1" ∧
    (∀ a, EngineCall.selectPortsCall a ∈ (New cEnvHealthy cOptsOne).trace →
      a = "127.0.0.1") ∧
    (∀ hp, EngineCall.dial hp ∈ (New cEnvHealthy cOptsOne).trace →
      ∃ p : Int, hp = "127.0.0.1" ++ ":" ++ toString p) := by
  exact New_address_hardcoded cEnvHealthy cOptsOne
    ⟨"cid1", "127.0.0.1", [(cPortA, 40000)]⟩ rfl

end Docker
